import Mathlib

/-!
Shallow embedding of `src/main.rs` of `meltdown_rust`, a Meltdown-style
byte-recovery oracle.  Hardware effects that the program observes (the
status returned by `xbegin`, the value the speculative read sees, the
latency each timing probe measures) are supplied by an environment record;
the embedding mirrors the program's control flow, data flow, memory-access
pattern and output formatting.
-/

set_option maxRecDepth 100000

namespace Meltdown

/-- `CHUNK_SIZE` constant from the source. -/
def CHUNK_SIZE : Nat := 8

/-- `LINE_LEN` constant from the source. -/
def LINE_LEN : Nat := 32

/-- `PAGE_SIZE` constant from the source. -/
def PAGE_SIZE : Nat := 4096

/-- `BeginResult` from the source: the status `xbegin` reports. -/
inductive BeginResult where
  | XBeginStarted
  | XAbortExplicit
  | XAbortRetry
  | XAbortConflict
  | XAbortCapacity
  | XAbortDebug
  | XAbortNested
deriving DecidableEq, Repr

/-- The hardware environment of one oracle round: the byte value the
speculative `read_volatile` of the secret observes (a `u8`), the status
`xbegin` returns, and the latency in cycles that `probe` measures for the
slot at index `i` (the `times : Nat → Nat` field; only indices `< 256` are
ever consulted). -/
structure RoundEnv where
  secretVal : Fin 256
  xres : BeginResult
  times : Nat → Nat

/-- One fold step of Rust's `Iterator::min_by_key` with key `snd`:
the accumulator is replaced only by a strictly smaller key, so ties keep
the earliest element. -/
def selMin (acc y : Nat × Nat) : Nat × Nat := if y.2 < acc.2 then y else acc

/-- Rust's `iter().enumerate().min_by_key(|(_, item)| item)`: `none` models
the case where the source's `unwrap` would panic (empty iterator). -/
def minByKeySnd : List (Nat × Nat) → Option (Nat × Nat)
  | [] => none
  | x :: xs => some (xs.foldl selMin x)

/-- One fold step of Rust's `Iterator::max_by_key` with key `snd`:
the accumulator is replaced whenever the new key is at least as large, so
ties keep the latest element. -/
def selMax (acc y : Nat × Nat) : Nat × Nat := if acc.2 ≤ y.2 then y else acc

/-- Rust's `iter().enumerate().max_by_key(|(_, &item)| item)`. -/
def maxByKeySnd : List (Nat × Nat) → Option (Nat × Nat)
  | [] => none
  | x :: xs => some (xs.foldl selMax x)

/-- The `times` array built by the probe loop of `guess_byte_once`:
`times[i] = probe(buf.add(i * PAGE_SIZE))`, whose latency the environment
supplies as `env.times i`. -/
def timesList (env : RoundEnv) : List Nat := (List.range 256).map env.times

/-- The final selection of `guess_byte_once`:
`times.iter().enumerate().min_by_key(|&(_, item)| item).unwrap().0 as u8`.
`% 256` models the `as u8` cast; the `unwrap` cannot fail on the 256-entry
vector and its panic is modelled by the default `0`. -/
def guess_byte_once (env : RoundEnv) : Nat :=
  (match minByKeySnd (timesList env).enum with
   | some p => p.1
   | none => 0) % 256

lemma enum_range_map (g : Nat → Nat) (n : Nat) :
    ((List.range n).map g).enum = (List.range n).map fun i => (i, g i) := by
  rw [List.enum_eq_zip_range, List.length_map, List.length_range]
  calc (List.range n).zip ((List.range n).map g)
      = ((List.range n).map id).zip ((List.range n).map g) := by rw [List.map_id]
    _ = (List.range n).map (fun i => (id i, g i)) := List.zip_map' id g _
    _ = (List.range n).map (fun i => (i, g i)) := rfl

lemma foldl_selMin_spec (f : Nat → Nat) :
    ∀ k s a : Nat, a < s → (∀ j, j < s → f a ≤ f j) → (∀ j, j < a → f a < f j) →
      ∃ b, ((List.range' s k).map (fun i => (i, f i))).foldl selMin (a, f a) = (b, f b) ∧
        b < s + k ∧ (∀ j, j < s + k → f b ≤ f j) ∧ ∀ j, j < b → f b < f j := by
  intro k
  induction k with
  | zero =>
      intro s a ha hmin hfirst
      exact ⟨a, by simp, by omega, fun j hj => hmin j (by omega), hfirst⟩
  | succ k ih =>
      intro s a ha hmin hfirst
      rw [List.range'_succ, List.map_cons, List.foldl_cons]
      by_cases h : f s < f a
      · have hsel : selMin (a, f a) (s, f s) = (s, f s) := by simp [selMin, h]
        rw [hsel]
        have hmin' : ∀ j, j < s + 1 → f s ≤ f j := by
          intro j hj
          by_cases hj' : j < s
          · exact le_of_lt (lt_of_lt_of_le h (hmin j hj'))
          · have : j = s := by omega
            rw [this]
        have hfirst' : ∀ j, j < s → f s < f j := fun j hj =>
          lt_of_lt_of_le h (hmin j hj)
        obtain ⟨b, hb, hb1, hb2, hb3⟩ := ih (s + 1) s (Nat.lt_succ_self s) hmin' hfirst'
        exact ⟨b, hb, by omega, fun j hj => hb2 j (by omega), hb3⟩
      · have hsel : selMin (a, f a) (s, f s) = (a, f a) := by simp [selMin, h]
        rw [hsel]
        have hmin' : ∀ j, j < s + 1 → f a ≤ f j := by
          intro j hj
          by_cases hj' : j < s
          · exact hmin j hj'
          · have : j = s := by omega
            rw [this]; omega
        obtain ⟨b, hb, hb1, hb2, hb3⟩ := ih (s + 1) a (by omega) hmin' hfirst
        exact ⟨b, hb, by omega, fun j hj => hb2 j (by omega), hb3⟩

lemma minByKeySnd_range (f : Nat → Nat) (m : Nat) :
    ∃ b, minByKeySnd ((List.range (m + 1)).map (fun i => (i, f i))) = some (b, f b) ∧
      b < m + 1 ∧ (∀ j, j < m + 1 → f b ≤ f j) ∧ ∀ j, j < b → f b < f j := by
  have h0 : List.range (m + 1) = 0 :: List.range' 1 m := by
    rw [List.range_eq_range', List.range'_succ]
  rw [h0, List.map_cons]
  obtain ⟨b, hb, hb1, hb2, hb3⟩ := foldl_selMin_spec f m 1 0 Nat.one_pos
    (fun j hj => by have : j = 0 := by omega
                    rw [this])
    (fun j hj => by omega)
  exact ⟨b, by rw [minByKeySnd, hb], by omega, fun j hj => hb2 j (by omega), hb3⟩

/-- C1: for every Timing Vector of 256 samples, `guess_byte_once`'s final
selection is the index of the minimum-latency slot, and when several slots
share the minimum latency the guess is the lowest such index (every
strictly lower index has strictly larger latency). -/
theorem guess_byte_once_min_latency (env : RoundEnv) :
    guess_byte_once env < 256 ∧
    (∀ j, j < 256 → env.times (guess_byte_once env) ≤ env.times j) ∧
    ∀ j, j < guess_byte_once env → env.times (guess_byte_once env) < env.times j := by
  obtain ⟨b, hb, hb1, hb2, hb3⟩ := minByKeySnd_range env.times 255
  rw [show (255 : Nat) + 1 = 256 from rfl] at hb hb1 hb2
  have henum : (timesList env).enum = (List.range 256).map fun i => (i, env.times i) :=
    enum_range_map env.times 256
  have hval : guess_byte_once env = b := by
    unfold guess_byte_once
    rw [henum, hb]
    exact Nat.mod_eq_of_lt hb1
  rw [hval]
  exact ⟨hb1, hb2, hb3⟩

/-- A concrete round environment used by the witness of C1: slot 7 has the
unique minimum latency. -/
def wEnvC1 : RoundEnv :=
  ⟨⟨0, by norm_num⟩, BeginResult.XBeginStarted, fun i => if i = 7 then 10 else 200⟩

theorem guess_byte_once_min_latency_witness :
    guess_byte_once wEnvC1 < 256 ∧
    (∀ j, j < 256 → wEnvC1.times (guess_byte_once wEnvC1) ≤ wEnvC1.times j) ∧
    ∀ j, j < guess_byte_once wEnvC1 → wEnvC1.times (guess_byte_once wEnvC1) < wEnvC1.times j :=
  guess_byte_once_min_latency wEnvC1

/-- `PROBE_COUNT` constant from the source (`guess_byte`). -/
def PROBE_COUNT : Nat := 5

/-- One `hit_counts[v] += 1` update of the histogram in `guess_byte`. -/
def bumpCount (h : Nat → Nat) (v : Nat) : Nat → Nat :=
  fun j => if j = v then h j + 1 else h j

/-- The `hit_counts` array of `guess_byte` after `n` loop rounds, starting
from all zeroes; round `r` increments the slot guessed under environment
`envs r`.  Modelled as a function only ever consulted on indices `< 256`. -/
def hit_counts (envs : Nat → RoundEnv) (n : Nat) : Nat → Nat :=
  (List.range n).foldl (fun h r => bumpCount h (guess_byte_once (envs r))) fun _ => 0

/-- The final selection of `guess_byte` with round count `n`:
`hit_counts.iter().enumerate().max_by_key(|&(_, &item)| item).unwrap().0 as u8`. -/
def guess_byte_rounds (envs : Nat → RoundEnv) (n : Nat) : Nat :=
  (match maxByKeySnd ((List.range 256).map (hit_counts envs n)).enum with
   | some p => p.1
   | none => 0) % 256

/-- `guess_byte` from the source: `PROBE_COUNT` oracle rounds, then the
majority vote over the accumulated histogram. -/
def guess_byte (envs : Nat → RoundEnv) : Nat := guess_byte_rounds envs PROBE_COUNT

lemma guess_byte_once_lt (env : RoundEnv) : guess_byte_once env < 256 :=
  Nat.mod_lt _ (by norm_num)

lemma foldl_selMax_spec (f : Nat → Nat) :
    ∀ k s a : Nat, a < s → (∀ j, j < s → f j ≤ f a) → (∀ j, a < j → j < s → f j < f a) →
      ∃ b, ((List.range' s k).map (fun i => (i, f i))).foldl selMax (a, f a) = (b, f b) ∧
        b < s + k ∧ (∀ j, j < s + k → f j ≤ f b) ∧ ∀ j, b < j → j < s + k → f j < f b := by
  intro k
  induction k with
  | zero =>
      intro s a ha hmax hlast
      exact ⟨a, by simp, by omega, fun j hj => hmax j (by omega),
        fun j hj hj' => hlast j hj (by omega)⟩
  | succ k ih =>
      intro s a ha hmax hlast
      rw [List.range'_succ, List.map_cons, List.foldl_cons]
      by_cases h : f a ≤ f s
      · have hsel : selMax (a, f a) (s, f s) = (s, f s) := by simp [selMax, h]
        rw [hsel]
        have hmax' : ∀ j, j < s + 1 → f j ≤ f s := by
          intro j hj
          by_cases hj' : j < s
          · exact le_trans (hmax j hj') h
          · have : j = s := by omega
            rw [this]
        have hlast' : ∀ j, s < j → j < s + 1 → f j < f s := by
          intro j hj hj'
          omega
        obtain ⟨b, hb, hb1, hb2, hb3⟩ := ih (s + 1) s (Nat.lt_succ_self s) hmax' hlast'
        exact ⟨b, hb, by omega, fun j hj => hb2 j (by omega),
          fun j hj hj' => hb3 j hj (by omega)⟩
      · have hsel : selMax (a, f a) (s, f s) = (a, f a) := by simp [selMax, h]
        rw [hsel]
        have hmax' : ∀ j, j < s + 1 → f j ≤ f a := by
          intro j hj
          by_cases hj' : j < s
          · exact hmax j hj'
          · have : j = s := by omega
            rw [this]; omega
        have hlast' : ∀ j, a < j → j < s + 1 → f j < f a := by
          intro j hj hj'
          by_cases hj2 : j < s
          · exact hlast j hj hj2
          · have : j = s := by omega
            rw [this]; omega
        obtain ⟨b, hb, hb1, hb2, hb3⟩ := ih (s + 1) a (by omega) hmax' hlast'
        exact ⟨b, hb, by omega, fun j hj => hb2 j (by omega),
          fun j hj hj' => hb3 j hj (by omega)⟩

lemma maxByKeySnd_range (f : Nat → Nat) (m : Nat) :
    ∃ b, maxByKeySnd ((List.range (m + 1)).map (fun i => (i, f i))) = some (b, f b) ∧
      b < m + 1 ∧ (∀ j, j < m + 1 → f j ≤ f b) ∧ ∀ j, b < j → j < m + 1 → f j < f b := by
  have h0 : List.range (m + 1) = 0 :: List.range' 1 m := by
    rw [List.range_eq_range', List.range'_succ]
  rw [h0, List.map_cons]
  obtain ⟨b, hb, hb1, hb2, hb3⟩ := foldl_selMax_spec f m 1 0 Nat.one_pos
    (fun j hj => by have : j = 0 := by omega
                    rw [this])
    (fun j hj hj' => by omega)
  exact ⟨b, by rw [maxByKeySnd, hb], by omega, fun j hj => hb2 j (by omega),
    fun j hj hj' => hb3 j hj (by omega)⟩

/-- A round environment whose timing vector makes `guess_byte_once` return
`g` (unique minimum latency at slot `g`). -/
def mkRoundEnv (g : Nat) : RoundEnv :=
  ⟨⟨0, by norm_num⟩, BeginResult.XBeginStarted, fun i => if i = g then 10 else 200⟩

/-- Round environments for the C2 counterexample: the five rounds guess
`0, 0, 1, 1, 2`, so slots 0 and 1 tie for the highest count. -/
def cexEnvs : Nat → RoundEnv := fun r =>
  mkRoundEnv (if r ≤ 1 then 0 else if r ≤ 3 then 1 else 2)

/-- C2 counterexample: after rounds guessing `0, 0, 1, 1, 2`, slots 0 and 1
both hold the highest count 2, yet `guess_byte` returns 1, not the lowest
tied index 0. -/
theorem guess_byte_tie_cex :
    hit_counts cexEnvs PROBE_COUNT 0 = 2 ∧
    hit_counts cexEnvs PROBE_COUNT 1 = 2 ∧
    (((List.range 256).map (hit_counts cexEnvs PROBE_COUNT)).all
      fun c => decide (c ≤ 2)) = true ∧
    guess_byte cexEnvs = 1 := by
  decide

/-- C2 amended: `guess_byte` returns a slot holding the highest count of the
Hit Histogram, and when several slots tie for the highest count it returns
the highest such index (every slot above the returned one has a strictly
smaller count). -/
theorem guess_byte_majority_vote (envs : Nat → RoundEnv) :
    guess_byte envs < 256 ∧
    (∀ j, j < 256 →
      hit_counts envs PROBE_COUNT j ≤ hit_counts envs PROBE_COUNT (guess_byte envs)) ∧
    ∀ j, guess_byte envs < j → j < 256 →
      hit_counts envs PROBE_COUNT j < hit_counts envs PROBE_COUNT (guess_byte envs) := by
  obtain ⟨b, hb, hb1, hb2, hb3⟩ := maxByKeySnd_range (hit_counts envs PROBE_COUNT) 255
  rw [show (255 : Nat) + 1 = 256 from rfl] at hb hb1 hb2 hb3
  have henum : (((List.range 256).map (hit_counts envs PROBE_COUNT))).enum =
      (List.range 256).map fun i => (i, hit_counts envs PROBE_COUNT i) :=
    enum_range_map (hit_counts envs PROBE_COUNT) 256
  have hval : guess_byte envs = b := by
    unfold guess_byte guess_byte_rounds
    rw [henum, hb]
    exact Nat.mod_eq_of_lt hb1
  rw [hval]
  exact ⟨hb1, hb2, hb3⟩

/-- Concrete environments for the C2 witness: all five rounds guess 3. -/
def wEnvC2 : Nat → RoundEnv := fun _ => mkRoundEnv 3

theorem guess_byte_majority_vote_witness :
    guess_byte wEnvC2 < 256 ∧
    (∀ j, j < 256 →
      hit_counts wEnvC2 PROBE_COUNT j ≤ hit_counts wEnvC2 PROBE_COUNT (guess_byte wEnvC2)) ∧
    ∀ j, guess_byte wEnvC2 < j → j < 256 →
      hit_counts wEnvC2 PROBE_COUNT j < hit_counts wEnvC2 PROBE_COUNT (guess_byte wEnvC2) :=
  guess_byte_majority_vote wEnvC2

lemma bumpCount_sum (h : Nat → Nat) (v m : Nat) :
    ((List.range m).map (bumpCount h v)).sum =
      ((List.range m).map h).sum + (if v < m then 1 else 0) := by
  induction m with
  | zero => simp
  | succ m ih =>
      rw [List.range_succ, List.map_append, List.map_append,
        List.sum_append, List.sum_append, ih]
      simp only [List.map_cons, List.map_nil, List.sum_cons, List.sum_nil, bumpCount]
      split_ifs <;> omega

lemma hit_counts_succ (envs : Nat → RoundEnv) (n : Nat) :
    hit_counts envs (n + 1) =
      bumpCount (hit_counts envs n) (guess_byte_once (envs n)) := by
  unfold hit_counts
  rw [List.range_succ, List.foldl_append]
  simp

/-- C3: `guess_byte` runs the Byte Oracle a fixed number of rounds, five by
default (`PROBE_COUNT = 5`), the count being the loop bound `n` here; every
round increments exactly the guessed slot's histogram entry by one, so
after the loop the histogram entries sum to the round count. -/
theorem guess_byte_histogram_total (envs : Nat → RoundEnv) (n : Nat) :
    PROBE_COUNT = 5 ∧
    ((List.range 256).map (hit_counts envs n)).sum = n := by
  refine ⟨rfl, ?_⟩
  induction n with
  | zero =>
      have h : hit_counts envs 0 = fun _ => 0 := rfl
      rw [h]
      simp
  | succ n ih =>
      rw [hit_counts_succ, bumpCount_sum, ih, if_pos (guess_byte_once_lt (envs n))]

/-- Observable memory and synchronisation events of one oracle round; the
`off` arguments are byte offsets into the probe buffer. -/
inductive Event where
  | flushEv (off : Nat)
  | xbeginEv (r : BeginResult)
  | specReadEv (off : Nat)
  | xendEv
  | fenceEv
  | probeEv (off : Nat)
deriving DecidableEq, Repr

/-- The flush loop `flush_probe_buf` from the source: one
`flush(buf.add(i * PAGE_SIZE))` for `i = 0..255`, in order. -/
def flush_probe_buf : List Event :=
  (List.range 256).map fun i => Event.flushEv (i * PAGE_SIZE)

/-- The transactional-read-gadget section of `guess_byte_once`: `xbegin`;
on a started status, the speculative read at `secret-value × PAGE_SIZE`
followed by `xend`; on any abort status, a `fence` and nothing else. -/
def gadgetTrace (env : RoundEnv) : List Event :=
  Event.xbeginEv env.xres ::
    (if env.xres = BeginResult.XBeginStarted then
      [Event.specReadEv (env.secretVal.val * PAGE_SIZE), Event.xendEv]
     else
      [Event.fenceEv])

/-- The probe loop of `guess_byte_once`: `probe(buf.add(i * PAGE_SIZE))`
for `i = 0..255`, in order. -/
def probeTrace : List Event :=
  (List.range 256).map fun i => Event.probeEv (i * PAGE_SIZE)

/-- The full event trace of one `guess_byte_once` round, in program order:
the flush loop, then the gadget, then the probe loop; the min-selection
that follows touches no memory. -/
def guess_byte_once_trace (env : RoundEnv) : List Event :=
  flush_probe_buf ++ gadgetTrace env ++ probeTrace

/-- C4: each round first flushes all 256 probe-buffer slots, one flush per
slot at offsets `i × PAGE_SIZE` for `i = 0..255`, then runs the gadget
(which performs no flush and no probe), then probes all 256 slots in
ascending offset order; the guess selection comes after all events. -/
theorem guess_byte_once_phase_order (env : RoundEnv) :
    guess_byte_once_trace env =
      ((List.range 256).map fun i => Event.flushEv (i * PAGE_SIZE)) ++
        gadgetTrace env ++
        ((List.range 256).map fun i => Event.probeEv (i * PAGE_SIZE)) ∧
    (∀ off, Event.flushEv off ∉ gadgetTrace env ∧ Event.probeEv off ∉ gadgetTrace env) ∧
    List.Pairwise (· < ·) ((List.range 256).map fun i => i * PAGE_SIZE) := by
  refine ⟨rfl, ?_, ?_⟩
  · intro off
    unfold gadgetTrace
    by_cases hx : env.xres = BeginResult.XBeginStarted
    · rw [if_pos hx]
      constructor <;> simp
    · rw [if_neg hx]
      constructor <;> simp
  · exact (List.pairwise_lt_range 256).map (fun i => i * PAGE_SIZE)
      (fun a b hab => by simp only [PAGE_SIZE]; omega)

/-- A concrete round environment for the C4 witness. -/
def wEnvC4 : RoundEnv :=
  ⟨⟨5, by norm_num⟩, BeginResult.XBeginStarted, fun i => 300 - i⟩

theorem guess_byte_once_phase_order_witness :
    guess_byte_once_trace wEnvC4 =
      ((List.range 256).map fun i => Event.flushEv (i * PAGE_SIZE)) ++
        gadgetTrace wEnvC4 ++
        ((List.range 256).map fun i => Event.probeEv (i * PAGE_SIZE)) ∧
    (∀ off, Event.flushEv off ∉ gadgetTrace wEnvC4 ∧
      Event.probeEv off ∉ gadgetTrace wEnvC4) ∧
    List.Pairwise (· < ·) ((List.range 256).map fun i => i * PAGE_SIZE) :=
  guess_byte_once_phase_order wEnvC4

/-- Size of the allocation request in `main`:
`Layout::from_size_align_unchecked(256 * PAGE_SIZE, PAGE_SIZE)`. -/
def layoutSize : Nat := 256 * PAGE_SIZE

/-- Alignment of the allocation request in `main`. -/
def layoutAlign : Nat := PAGE_SIZE

/-- Every byte offset into the probe buffer that one round accesses: flush
targets, the speculative-read target, and probe targets, read off the
round's event trace. -/
def roundAccessOffsets (env : RoundEnv) : List Nat :=
  (guess_byte_once_trace env).filterMap fun e =>
    match e with
    | Event.flushEv off => some off
    | Event.specReadEv off => some off
    | Event.probeEv off => some off
    | _ => none

/-- C5: the probe buffer is allocated with size exactly `256 × PAGE_SIZE`
and page alignment, every access the oracle makes in a round is at offset
`v × PAGE_SIZE` for some value `v < 256` and lies inside the buffer, and
distinct values land in distinct pages. -/
theorem probe_buffer_layout_invariant (env : RoundEnv) :
    layoutSize = 256 * PAGE_SIZE ∧ layoutAlign = PAGE_SIZE ∧
    (∀ off ∈ roundAccessOffsets env,
      ∃ v, v < 256 ∧ off = v * PAGE_SIZE ∧ off < layoutSize) ∧
    ∀ v w, v < 256 → w < 256 → v ≠ w →
      v * PAGE_SIZE / PAGE_SIZE ≠ w * PAGE_SIZE / PAGE_SIZE := by
  refine ⟨rfl, rfl, ?_, ?_⟩
  · intro off hoff
    unfold roundAccessOffsets guess_byte_once_trace at hoff
    rw [List.mem_filterMap] at hoff
    obtain ⟨e, he, hfe⟩ := hoff
    rw [List.mem_append, List.mem_append] at he
    have hbound : ∀ i : Nat, i < 256 → i * PAGE_SIZE < layoutSize := by
      intro i hi
      simp only [layoutSize, PAGE_SIZE]
      omega
    rcases he with (he | he) | he
    · unfold flush_probe_buf at he
      rw [List.mem_map] at he
      obtain ⟨i, hi, rfl⟩ := he
      rw [List.mem_range] at hi
      cases hfe
      exact ⟨i, hi, rfl, hbound i hi⟩
    · unfold gadgetTrace at he
      by_cases hx : env.xres = BeginResult.XBeginStarted
      · rw [if_pos hx] at he
        simp only [List.mem_cons, List.not_mem_nil, or_false] at he
        rcases he with rfl | rfl | rfl
        · cases hfe
        · cases hfe
          exact ⟨env.secretVal.val, env.secretVal.isLt, rfl,
            hbound env.secretVal.val env.secretVal.isLt⟩
        · cases hfe
      · rw [if_neg hx] at he
        simp only [List.mem_cons, List.not_mem_nil, or_false] at he
        rcases he with rfl | rfl
        · cases hfe
        · cases hfe
    · unfold probeTrace at he
      rw [List.mem_map] at he
      obtain ⟨i, hi, rfl⟩ := he
      rw [List.mem_range] at hi
      cases hfe
      exact ⟨i, hi, rfl, hbound i hi⟩
  · intro v w hv hw hvw
    have hp : 0 < PAGE_SIZE := by simp [PAGE_SIZE]
    rw [Nat.mul_div_cancel _ hp, Nat.mul_div_cancel _ hp]
    exact hvw

/-- A concrete round environment for the C5 witness. -/
def wEnvC5 : RoundEnv :=
  ⟨⟨17, by norm_num⟩, BeginResult.XBeginStarted, fun i => 100 + i⟩

theorem probe_buffer_layout_invariant_witness :
    layoutSize = 256 * PAGE_SIZE ∧ layoutAlign = PAGE_SIZE ∧
    (∀ off ∈ roundAccessOffsets wEnvC5,
      ∃ v, v < 256 ∧ off = v * PAGE_SIZE ∧ off < layoutSize) ∧
    ∀ v w, v < 256 → w < 256 → v ≠ w →
      v * PAGE_SIZE / PAGE_SIZE ≠ w * PAGE_SIZE / PAGE_SIZE :=
  probe_buffer_layout_invariant wEnvC5

/-- C6: on any non-started `xbegin` status the gadget takes the fallback
path: its trace is exactly the begin event followed by a fence, no
speculative read occurs anywhere in the round, the round still performs the
flush phase and the full probe phase in order, and the round returns a
Byte Guess in `[0, 255]`. -/
theorem abort_fallback (env : RoundEnv)
    (h : env.xres ≠ BeginResult.XBeginStarted) :
    gadgetTrace env = [Event.xbeginEv env.xres, Event.fenceEv] ∧
    (∀ off, Event.specReadEv off ∉ guess_byte_once_trace env) ∧
    guess_byte_once_trace env =
      flush_probe_buf ++ [Event.xbeginEv env.xres, Event.fenceEv] ++ probeTrace ∧
    guess_byte_once env < 256 := by
  have hg : gadgetTrace env = [Event.xbeginEv env.xres, Event.fenceEv] := by
    unfold gadgetTrace
    rw [if_neg h]
  refine ⟨hg, ?_, ?_, guess_byte_once_lt env⟩
  · intro off
    unfold guess_byte_once_trace
    rw [hg]
    simp [flush_probe_buf, probeTrace]
  · unfold guess_byte_once_trace
    rw [hg]

/-- A concrete aborted-round environment for the C6 witness. -/
def wEnvC6 : RoundEnv :=
  ⟨⟨0, by norm_num⟩, BeginResult.XAbortConflict, fun _ => 100⟩

theorem abort_fallback_witness :
    wEnvC6.xres ≠ BeginResult.XBeginStarted ∧
    (gadgetTrace wEnvC6 = [Event.xbeginEv wEnvC6.xres, Event.fenceEv] ∧
      (∀ off, Event.specReadEv off ∉ guess_byte_once_trace wEnvC6) ∧
      guess_byte_once_trace wEnvC6 =
        flush_probe_buf ++ [Event.xbeginEv wEnvC6.xres, Event.fenceEv] ++ probeTrace ∧
      guess_byte_once wEnvC6 < 256) :=
  ⟨by decide, abort_fallback wEnvC6 (by decide)⟩

/-- `human_readable` from the source: bytes from `' '` (0x20) to `'~'`
(0x7E) render as themselves, all others as a dot. -/
def human_readable (byte : Nat) : Char :=
  if 32 ≤ byte ∧ byte ≤ 126 then Char.ofNat byte else '.'

/-- One uppercase hex digit, as produced by `{:02X}` / `{:016X}`. -/
def hexDigitChar (n : Nat) : Char :=
  if n < 10 then Char.ofNat (48 + n) else Char.ofNat (55 + n)

/-- `{:02X}` rendering of one byte (two digits, zero-padded). -/
def byteHexChars (b : Nat) : List Char :=
  [hexDigitChar (b / 16), hexDigitChar (b % 16)]

/-- Fuel-driven core of Rust's `slice::chunks`; the fuel is an upper bound
on the list length, so with chunk size `k ≥ 1` the fuel never runs out. -/
def chunksGo (k : Nat) : Nat → List α → List (List α)
  | _, [] => []
  | 0, _ :: _ => []
  | fuel + 1, x :: xs => (x :: xs).take k :: chunksGo k fuel ((x :: xs).drop k)

/-- Rust's `s.chunks(k)` for `k > 0`. -/
def chunks (k : Nat) (l : List α) : List (List α) := chunksGo k l.length l

/-- The hex field printed by `dump_hex`: for each chunk of `CHUNK_SIZE`
bytes, the `{:02X}` pairs concatenated, followed by one space. -/
def hexFieldChars (s : List Nat) : List Char :=
  ((chunks CHUNK_SIZE s).map fun c => (c.map byteHexChars).flatten ++ [' ']).flatten

/-- The ASCII field printed by `dump_hex`: one `human_readable` character
per input byte. -/
def asciiFieldChars (s : List Nat) : List Char := s.map human_readable

/-- Value of one hex digit character (inverse of `hexDigitChar`). -/
def parseHexDigit (c : Char) : Nat :=
  if 48 ≤ c.toNat ∧ c.toNat ≤ 57 then c.toNat - 48 else c.toNat - 55

/-- Byte-by-byte parse of a hex character stream: two digits per byte. -/
def parseHexBytes : List Char → List Nat
  | c1 :: c2 :: rest => (parseHexDigit c1 * 16 + parseHexDigit c2) :: parseHexBytes rest
  | _ => []

lemma parseHexDigit_hexDigitChar : ∀ n, n < 16 → parseHexDigit (hexDigitChar n) = n := by
  decide

lemma hexDigitChar_ne_space : ∀ n, n < 16 → (hexDigitChar n == ' ') = false := by
  decide

lemma byteHexChars_parse (b : Nat) (hb : b < 256) (R : List Char) :
    parseHexBytes (byteHexChars b ++ R) = b :: parseHexBytes R := by
  have h1 : b / 16 < 16 := by omega
  have h2 : b % 16 < 16 := by omega
  simp only [byteHexChars, List.cons_append, List.nil_append, parseHexBytes]
  rw [parseHexDigit_hexDigitChar _ h1, parseHexDigit_hexDigitChar _ h2]
  congr 1
  omega

lemma chunkHex_parse (c : List Nat) (R : List Char) (hc : ∀ b ∈ c, b < 256) :
    parseHexBytes ((c.map byteHexChars).flatten ++ R) = c ++ parseHexBytes R := by
  induction c with
  | nil => simp
  | cons b bs ih =>
      rw [List.map_cons, List.flatten_cons, List.append_assoc,
        byteHexChars_parse b (hc b (by simp)) _]
      rw [ih fun b' hb' => hc b' (by simp [hb'])]
      rfl

lemma filter_hexChars (c : List Nat) (hc : ∀ b ∈ c, b < 256) :
    ((c.map byteHexChars).flatten).filter (fun ch => !(ch == ' ')) =
      (c.map byteHexChars).flatten := by
  rw [List.filter_eq_self]
  intro ch hch
  rw [List.mem_flatten] at hch
  obtain ⟨l, hl, hchl⟩ := hch
  rw [List.mem_map] at hl
  obtain ⟨b, hb, rfl⟩ := hl
  have hb256 := hc b hb
  simp only [byteHexChars, List.mem_cons, List.not_mem_nil, or_false] at hchl
  rcases hchl with rfl | rfl
  · have h := hexDigitChar_ne_space (b / 16) (by omega)
    simp [h]
  · have h := hexDigitChar_ne_space (b % 16) (by omega)
    simp [h]

lemma chunksGo_hexField_roundtrip (fuel : Nat) :
    ∀ l : List Nat, l.length ≤ fuel → (∀ b ∈ l, b < 256) →
      parseHexBytes
        ((((chunksGo CHUNK_SIZE fuel l).map
            fun c => (c.map byteHexChars).flatten ++ [' ']).flatten).filter
          fun ch => !(ch == ' ')) = l := by
  induction fuel with
  | zero =>
      intro l hl hb
      have h0 : l = [] := List.length_eq_zero.mp (by omega)
      subst h0
      rfl
  | succ fuel ih =>
      intro l hl hb
      cases l with
      | nil => rfl
      | cons x xs =>
          rw [show chunksGo CHUNK_SIZE (fuel + 1) (x :: xs) =
              (x :: xs).take CHUNK_SIZE ::
                chunksGo CHUNK_SIZE fuel ((x :: xs).drop CHUNK_SIZE) from rfl]
          rw [List.map_cons, List.flatten_cons, List.filter_append, List.filter_append]
          have htake : ∀ b ∈ (x :: xs).take CHUNK_SIZE, b < 256 :=
            fun b hbm => hb b (List.mem_of_mem_take hbm)
          rw [filter_hexChars _ htake]
          rw [show (([' '] : List Char).filter fun ch => !(ch == ' ')) = [] from rfl]
          rw [List.append_nil]
          rw [chunkHex_parse _ _ htake]
          rw [ih ((x :: xs).drop CHUNK_SIZE)
            (by simp only [List.length_drop, List.length_cons, CHUNK_SIZE]
                simp only [List.length_cons] at hl
                omega)
            (fun b hbm => hb b (List.mem_of_mem_drop hbm))]
          exact List.take_append_drop _ _

/-- C7: for every byte sequence of length at most `LINE_LEN`, parsing the
hex field emitted by `dump_hex` byte-by-byte (ignoring the group-separator
spaces) reproduces the input exactly, and in the ASCII field each byte in
`[0x20, 0x7E]` renders as itself while each byte outside renders as a
dot. -/
theorem dump_hex_round_trip (s : List Nat) (hlen : s.length ≤ LINE_LEN)
    (hb : ∀ b ∈ s, b < 256) :
    parseHexBytes ((hexFieldChars s).filter fun ch => !(ch == ' ')) = s ∧
    asciiFieldChars s = s.map human_readable ∧
    ∀ b ∈ s, (32 ≤ b ∧ b ≤ 126 → human_readable b = Char.ofNat b) ∧
      (¬(32 ≤ b ∧ b ≤ 126) → human_readable b = '.') := by
  refine ⟨?_, rfl, ?_⟩
  · unfold hexFieldChars chunks
    exact chunksGo_hexField_roundtrip s.length s (le_refl _) hb
  · intro b hbm
    constructor
    · intro h
      unfold human_readable
      rw [if_pos h]
    · intro h
      unfold human_readable
      rw [if_neg h]

/-- The demonstration string's bytes, used as the C7 witness input. -/
def wBytesC7 : List Nat := ("papa, can you hear me?".toList).map Char.toNat

theorem dump_hex_round_trip_witness :
    wBytesC7.length ≤ LINE_LEN ∧ (∀ b ∈ wBytesC7, b < 256) ∧
    (parseHexBytes ((hexFieldChars wBytesC7).filter fun ch => !(ch == ' ')) = wBytesC7 ∧
     asciiFieldChars wBytesC7 = wBytesC7.map human_readable ∧
     ∀ b ∈ wBytesC7, (32 ≤ b ∧ b ≤ 126 → human_readable b = Char.ofNat b) ∧
       (¬(32 ≤ b ∧ b ≤ 126) → human_readable b = '.')) :=
  ⟨by decide, by decide, dump_hex_round_trip wBytesC7 (by decide) (by decide)⟩

/-- `{:016X}` rendering of a 64-bit address: 16 uppercase hex digits,
zero-padded; digit `i` from the left is `n / 16 ^ (15 - i) % 16`. -/
def hex16 (n : Nat) : List Char :=
  (List.range 16).map fun i => hexDigitChar (n / 16 ^ (15 - i) % 16)

/-- The one line a `dump_hex(addr, s)` call prints, final newline included:
`print!("0x{:016X} | ", addr)`, the hex field, the padding loop printing
two spaces per missing byte slot (`remainder` of them), the alignment loop
printing `remainder / 8` single spaces, `print!("| ")`, the ASCII field,
`println!("")`. -/
def dump_hex (addr : Nat) (s : List Nat) : List Char :=
  ('0' :: 'x' :: hex16 addr) ++ (' ' :: '|' :: ' ' :: []) ++ hexFieldChars s ++
    (List.replicate (LINE_LEN - s.length) ([' ', ' '] : List Char)).flatten ++
    List.replicate ((LINE_LEN - s.length) / 8) ' ' ++
    ('|' :: ' ' :: []) ++ asciiFieldChars s ++ ['\n']

/-- `dump_hex` with its `assert!(s.len() <= LINE_LEN)` made explicit:
`none` models the assertion panic. -/
def dump_hex_checked (addr : Nat) (s : List Nat) : Option (List Char) :=
  if s.length ≤ LINE_LEN then some (dump_hex addr s) else none

/-- The chunk starts produced by `(0..len).step_by(LINE_LEN)` in `main`:
the multiples of `LINE_LEN` below `len`, in ascending order. -/
def lineStarts (len : Nat) : List Nat :=
  (List.range len).filter fun i => i % LINE_LEN == 0

/-- C8: a 23-byte input with line width 32 gives exactly one chunk start
(so one output line of the form address-bar-hex-bar-ascii), whose ASCII
field is exactly the 23 rendered characters with nothing padded in, and
whose hex field is padded with two blank spaces for each of the 9 missing
byte slots plus `9 / 8 = 1` extra alignment space for the one completed
8-slot group of padding. -/
theorem line_partition_23 (addr : Nat) (s : List Nat) (h : s.length = 23) :
    lineStarts 23 = [0] ∧
    min (23 - 0) LINE_LEN = 23 ∧
    dump_hex addr s =
      ('0' :: 'x' :: hex16 addr) ++ (' ' :: '|' :: ' ' :: []) ++ hexFieldChars s ++
        (List.replicate 9 ([' ', ' '] : List Char)).flatten ++
        List.replicate (9 / 8) ' ' ++
        ('|' :: ' ' :: []) ++ s.map human_readable ++ ['\n'] ∧
    (asciiFieldChars s).length = 23 ∧
    (List.replicate 9 ([' ', ' '] : List Char)).flatten.length = 2 * 9 ∧
    9 / 8 = 1 := by
  refine ⟨by decide, by decide, ?_, ?_, by decide, by decide⟩
  · unfold dump_hex
    rw [h]
    rfl
  · simp [asciiFieldChars, h]

/-- A concrete 23-byte input for the C8 witness. -/
def wBytesC8 : List Nat := List.replicate 23 65

theorem line_partition_23_witness :
    wBytesC8.length = 23 ∧
    (lineStarts 23 = [0] ∧
     min (23 - 0) LINE_LEN = 23 ∧
     dump_hex 0 wBytesC8 =
       ('0' :: 'x' :: hex16 0) ++ (' ' :: '|' :: ' ' :: []) ++ hexFieldChars wBytesC8 ++
         (List.replicate 9 ([' ', ' '] : List Char)).flatten ++
         List.replicate (9 / 8) ' ' ++
         ('|' :: ' ' :: []) ++ wBytesC8.map human_readable ++ ['\n'] ∧
     (asciiFieldChars wBytesC8).length = 23 ∧
     (List.replicate 9 ([' ', ' '] : List Char)).flatten.length = 2 * 9 ∧
     9 / 8 = 1) :=
  ⟨by decide, line_partition_23 0 wBytesC8 (by decide)⟩

/-- The demonstration string `TEST` from `main`. -/
def TEST : List Char := "papa, can you hear me?".toList

/-- `TEST.len()` in `main`. -/
def testLen : Nat := TEST.length

/-- The process environment `main` observes: the page size reported by
`page_size::get()`, the allocation result (`some base`, or `none` for
failure), and for each scanned byte index the per-round hardware
environments its `guess_byte` call experiences. -/
structure SysEnv where
  hostPageSize : Nat
  allocResult : Option Nat
  rounds : Nat → Nat → RoundEnv

/-- The byte `guess_byte` recovers for byte index `x` of the scan. -/
def recoveredByte (env : SysEnv) (x : Nat) : Nat := guess_byte (env.rounds x)

/-- The fatal stops `main` can hit: the `assert_eq!` on the page size, the
`unwrap` on the allocation, and (shown unreachable) the `assert!` inside
`dump_hex`. -/
inductive FatalStop where
  | pageSizeMismatch
  | allocFailure
  | lineAssert
deriving DecidableEq, Repr

/-- One iteration of the scan loop of `main` at `chunk_start`: recover
`min(len - chunk_start, LINE_LEN)` bytes and render them. -/
def mainChunkLine (env : SysEnv) (startAddr chunk_start : Nat) : Option (List Char) :=
  dump_hex_checked (startAddr + chunk_start)
    ((List.range (min (testLen - chunk_start) LINE_LEN)).map
      fun x => recoveredByte env (chunk_start + x))

/-- All scan-loop lines in order; `none` if a `dump_hex` assertion fired. -/
def collectLines (env : SysEnv) (startAddr : Nat) : List Nat → Option (List (List Char))
  | [] => some []
  | c :: cs =>
      match mainChunkLine env startAddr c, collectLines env startAddr cs with
      | some l, some ls => some (l :: ls)
      | _, _ => none

/-- The banner `main` prints before the scan loop:
`println!("poke buffer: 0x{:016X}, page size: {}", poke_buf, PAGE_SIZE)`. -/
def pokeLine (base : Nat) : List Char :=
  ("poke buffer: 0x".toList) ++ hex16 base ++ (", page size: ".toList) ++
    (Nat.repr PAGE_SIZE).toList ++ ['\n']

/-- `main` from the source: `assert_eq!` on the page size, allocation
`unwrap`, the banner, then the scan loop.  On normal completion (exit code
0) the result is the list of stdout lines; otherwise the fatal stop hit. -/
def main (env : SysEnv) (startAddr : Nat) : Except FatalStop (List (List Char)) :=
  if env.hostPageSize = PAGE_SIZE then
    match env.allocResult with
    | none => Except.error FatalStop.allocFailure
    | some base =>
        match collectLines env startAddr (lineStarts testLen) with
        | none => Except.error FatalStop.lineAssert
        | some ls => Except.ok (pokeLine base :: ls)
  else Except.error FatalStop.pageSizeMismatch

lemma mainChunkLine_isSome (env : SysEnv) (startAddr c : Nat) :
    ∃ l, mainChunkLine env startAddr c = some l := by
  have hlen : ((List.range (min (testLen - c) LINE_LEN)).map
      fun x => recoveredByte env (c + x)).length ≤ LINE_LEN := by
    rw [List.length_map, List.length_range]
    exact Nat.min_le_right _ _
  unfold mainChunkLine dump_hex_checked
  rw [if_pos hlen]
  exact ⟨_, rfl⟩

lemma collectLines_isSome (env : SysEnv) (startAddr : Nat) (cs : List Nat) :
    ∃ ls, collectLines env startAddr cs = some ls ∧ ls.length = cs.length := by
  induction cs with
  | nil => exact ⟨[], rfl, rfl⟩
  | cons c cs ih =>
      obtain ⟨l, hl⟩ := mainChunkLine_isSome env startAddr c
      obtain ⟨ls, hls, hlen⟩ := ih
      refine ⟨l :: ls, ?_, by simp [hlen]⟩
      simp only [collectLines]
      rw [hl, hls]

/-- C9: at startup `main` checks exactly two fatal conditions: a host page
size other than the expected constant 4096 stops the process with a
page-size mismatch before any recovery, a failed probe-buffer allocation
stops it next, and whenever both checks pass the run always completes
normally with output (the `dump_hex` assertion can never fire) — the model
of exit code 0. -/
theorem main_fatal_conditions (env : SysEnv) (startAddr : Nat) :
    (env.hostPageSize ≠ PAGE_SIZE →
      main env startAddr = Except.error FatalStop.pageSizeMismatch) ∧
    (env.hostPageSize = PAGE_SIZE → env.allocResult = none →
      main env startAddr = Except.error FatalStop.allocFailure) ∧
    ∀ base, env.hostPageSize = PAGE_SIZE → env.allocResult = some base →
      ∃ ls, main env startAddr = Except.ok (pokeLine base :: ls) := by
  refine ⟨?_, ?_, ?_⟩
  · intro h
    unfold main
    rw [if_neg h]
  · intro h1 h2
    unfold main
    rw [if_pos h1, h2]
  · intro base h1 h2
    obtain ⟨ls, hls, _⟩ := collectLines_isSome env startAddr (lineStarts testLen)
    refine ⟨ls, ?_⟩
    unfold main
    rw [if_pos h1, h2, hls]

/-- A healthy startup environment for the C9 witness. -/
def wSysC9 : SysEnv := ⟨4096, some 0, fun _ _ => mkRoundEnv 0⟩

theorem main_fatal_conditions_witness :
    wSysC9.hostPageSize = PAGE_SIZE ∧ wSysC9.allocResult = some 0 ∧
    ∃ ls, main wSysC9 0 = Except.ok (pokeLine 0 :: ls) :=
  ⟨rfl, rfl, (main_fatal_conditions wSysC9 0).2.2 0 rfl rfl⟩

/-- C10: whenever the startup checks pass, the first stdout line is the
"poke buffer" banner carrying the probe-buffer base address and the page
size, and every per-chunk recovery line comes after it. -/
theorem poke_banner_first (env : SysEnv) (startAddr base : Nat)
    (h1 : env.hostPageSize = PAGE_SIZE) (h2 : env.allocResult = some base) :
    ∃ ls, main env startAddr = Except.ok (pokeLine base :: ls) ∧
      collectLines env startAddr (lineStarts testLen) = some ls ∧
      pokeLine base =
        ("poke buffer: 0x".toList) ++ hex16 base ++ (", page size: ".toList) ++
          (Nat.repr PAGE_SIZE).toList ++ ['\n'] := by
  obtain ⟨ls, hls, _⟩ := collectLines_isSome env startAddr (lineStarts testLen)
  refine ⟨ls, ?_, hls, rfl⟩
  unfold main
  rw [if_pos h1, h2, hls]

/-- A healthy startup environment for the C10 witness. -/
def wSysC10 : SysEnv := ⟨4096, some 4096, fun _ _ => mkRoundEnv 1⟩

theorem poke_banner_first_witness :
    wSysC10.hostPageSize = PAGE_SIZE ∧ wSysC10.allocResult = some 4096 ∧
    ∃ ls, main wSysC10 0 = Except.ok (pokeLine 4096 :: ls) ∧
      collectLines wSysC10 0 (lineStarts testLen) = some ls ∧
      pokeLine 4096 =
        ("poke buffer: 0x".toList) ++ hex16 4096 ++ (", page size: ".toList) ++
          (Nat.repr PAGE_SIZE).toList ++ ['\n'] :=
  ⟨rfl, rfl, poke_banner_first wSysC10 0 4096 rfl rfl⟩

end Meltdown
